import Mathlib

/-!
Verification of the node-opcua factory code generator
(`src/lib/misc/factory_code_generator.js`) against its specification.

The source file has two independent parts:

* `produce_code` and its helpers (`write_enumeration_define`,
  `write_enumeration`, `write_complex`, `write_basic`): a compiler that
  turns a resolved type schema into JavaScript source implementing a
  constructor, `encode`, `decode` and enumeration accessors.  We embed
  the *semantics of the generated code* as fuel-indexed functions over
  an environment of schemas, plus the compile-time checks performed by
  `produce_code` itself (encoding-id resolution, decode/decode_debug
  consistency, runtime id assignment).

* a `Subscription` keep-alive state machine; the claims touch only its
  sequence-number counters, embedded directly.

External collaborators that are not part of the repository
(`factories_schema_helpers.initialize_field` / `initialize_field_array`,
`encode_decode.encodeArray` / `decodeArray`, the builtin codec table,
the `Enum` library behind `typedEnum.get`, `generate_new_id`, and the
node-id catalog `ObjectIds`) are modelled from the spec; their doc
comments say so explicitly.
-/

namespace OpcuaFactory

/-! ## Basic data model: field descriptors and schemas -/

/-- Field category, from the schema field descriptors consumed by
`produce_code` (`field.category` in the source): `basic`, `complex` or
`enumeration`. -/
inductive Category where
  | basic
  | complex
  | enumeration
deriving DecidableEq, Repr

/-- Default value attached to a field descriptor (`field.defaultValue`
in the source).  `noDefault` models a missing `defaultValue` property
(`hasOwnProperty("defaultValue")` false); `dnull` models an explicit
JavaScript `null`; `dnum` a literal scalar; `dgen` a generator function
(invoked fresh per instance). -/
inductive FieldDefault where
  | noDefault
  | dnull
  | dnum (n : Nat)
  | dgen (n : Nat)
deriving DecidableEq, Repr

/-- A resolved field descriptor, as consumed by `produce_code`. -/
structure Field where
  name         : String
  fieldType    : String
  category     : Category
  isArray      : Bool
  defaultValue : FieldDefault
deriving DecidableEq, Repr

/-- A resolved type schema as seen by `produce_code`: name, base type
(normalised to `"BaseUAObject"` when absent, as the source does via
`schema.baseType = schema.baseType || "BaseUAObject"`), ordered field
list, optional encoding id (`schema.id`; `none` models JavaScript
`undefined`), and flags recording which optional hooks are functions
(`_.isFunction(schema.encode)` and friends). -/
structure Schema where
  name           : String
  baseType       : String
  fields         : List Field
  id             : Option Int
  hasEncode      : Bool
  hasDecode      : Bool
  hasDecodeDebug : Bool
deriving Repr

/-- The environment a generated class runs against: the registered
schemas (Type Registry) and the enumeration tables
(`_enumerations`: enumeration name to member list of (name, ordinal)). -/
structure Env where
  schemas : List Schema
  enums   : List (String × List (String × Nat))

def lookupSchema (env : Env) (n : String) : Option Schema :=
  env.schemas.find? (fun s => s.name == n)

def lookupEnum (env : Env) (n : String) : Option (List (String × Nat)) :=
  (env.enums.find? (fun e => e.1 == n)).map (fun e => e.2)

/-- Ordinals declared by an enumeration member list. -/
def ordinalsOf (members : List (String × Nat)) : List Nat :=
  members.map (fun m => m.2)

/-- Boolean string membership used for duplicate-name checks. -/
def memB (s : String) : List String → Bool
  | [] => false
  | x :: xs => s == x || memB s xs

/-- Boolean no-duplicates check on a list of names. -/
def nodupB : List String → Bool
  | [] => true
  | x :: xs => !memB x xs && nodupB xs

/-! ## Runtime values

Instances of generated classes are modelled by `Value`.  An instance of
a schema with base `B` is `objV b own` where `b` is the (recursively
modelled) `B`-portion initialised by `B.call(this, options)` and `own`
is the assoc list of this schema's declared fields in declaration
order, exactly as the generated constructor assigns them.  The root
class `BaseUAObject` is `rootV`.  `vnull` models JavaScript `null`. -/

inductive Value where
  | vnull
  | basicV (n : Nat)
  | enumV (n : Nat)
  | arrV (elems : List Value)
  | objV (base : Value) (own : List (String × Value))
  | rootV

/-- Option data passed to a generated constructor (the `options`
parameter): numbers, strings (symbolic enum names), arrays and nested
option objects. -/
inductive Opt where
  | onum (n : Nat)
  | ostr (s : String)
  | oarr (elems : List Opt)
  | oobj (fields : List (String × Opt))

/-- Property lookup on a field assoc list (JavaScript `this.member`). -/
def lookupF (l : List (String × Value)) (n : String) : Option Value :=
  (l.find? (fun p => p.1 == n)).map (fun p => p.2)

/-- Property lookup on an options object (`options.member`). -/
def lookupO (l : List (String × Opt)) (n : String) : Option Opt :=
  (l.find? (fun p => p.1 == n)).map (fun p => p.2)

/-! ## Subscription sequence numbers (second part of the source file) -/

/-- The wrap limit used by `Subscription.prototype._get_next_sequence_number`. -/
def sequenceNumberLimit : Nat := 4000000000

/-- `Subscription.prototype._get_next_sequence_number`: increments the
internal counter `__next_sequence_number`, wraps to 1 past the limit,
and returns the new value.  State-passing rendition: input is the
current counter, output is (returned value, new counter). -/
def _get_next_sequence_number (c : Nat) : Nat × Nat :=
  let c1 := c + 1
  let c2 := if c1 > sequenceNumberLimit then 1 else c1
  (c2, c2)

/-- `Subscription.prototype._get_future_sequence_number`: computes
`__next_sequence_number + 1` with the same wrap, without mutating the
counter; output is (returned value, unchanged counter). -/
def _get_future_sequence_number (c : Nat) : Nat × Nat :=
  let next := c + 1
  (if next > sequenceNumberLimit then 1 else next, c)

/-! ## Compile-time behaviour of `produce_code`

`produce_code` resolves the binary encoding id, rejects schemas without
one, rejects a custom `decode` without `decode_debug`, assigns runtime
ids from `generate_new_id()`, and (via the emitted
`register_class_definition` call executed when the generated module is
loaded) registers the compiled class.  The model returns the error (if
any), the registry after the call, and the id-counter after the call. -/

/-- The sentinel id flagging runtime id assignment
(`var RUNTIME_GENERATED_ID = -1;`). -/
def RUNTIME_GENERATED_ID : Int := -1

/-- Compile-time errors raised by `produce_code`.  Both correspond to
the spec's ConfigurationError taxon: a missing
`<Name>_Encoding_DefaultBinary` id, and a custom `decode` hook without
a matching `decode_debug`. -/
inductive CompileError where
  | missingBinaryId (name : String)
  | missingDecodeDebug (name : String)
deriving DecidableEq, Repr

/-- The binary encoding identifier attached to a compiled class:
either a fixed id from the schema/catalog (`makeExpandedNodeId(id)`) or
a process-wide runtime-assigned id (`generate_new_id()`). -/
inductive EncodingId where
  | fixedId (v : Int)
  | runtimeAssigned (v : Nat)
deriving DecidableEq, Repr

/-- A compiled type as registered by the generated module. -/
structure CompiledType where
  name                  : String
  encodingDefaultBinary : EncodingId
deriving DecidableEq, Repr

/-- The node-id catalog (`require("lib/opcua_node_ids").ObjectIds`).
Modelled from the spec: an external symbolic-name to numeric-id map,
queried at `"<Name>_Encoding_DefaultBinary"`. -/
abbrev Catalog := List (String × Int)

def catalogLookup (cat : Catalog) (key : String) : Option Int :=
  (cat.find? (fun p => p.1 == key)).map (fun p => p.2)

/-- Compile-time semantics of `produce_code` (plus the registration the
generated module performs when loaded).  Faithful to the source order:
1. `encoding_BinaryId = schema.id`, falling back to
   `objectNodeIds[name + "_Encoding_DefaultBinary"]` when `undefined`;
2. `if (!encoding_BinaryId) throw` — JavaScript falsiness, so both a
   missing id and a zero id are rejected;
3. inside the custom-decode branch, `if (!_.isFunction(schema.decode_debug)) throw`;
4. for `RUNTIME_GENERATED_ID`, `schema.id = generate_new_id()` runs once
   at module load, so the id is the current counter and the counter
   advances by one (`generate_new_id` is external; modelled from the
   spec as a monotonically increasing process-wide counter);
5. `register_class_definition(name, class)` appends to the registry.
On error nothing is written and nothing is registered. -/
def produce_code (cat : Catalog) (counter : Nat)
    (reg : List (String × CompiledType)) (s : Schema) :
    Option CompileError × List (String × CompiledType) × Nat :=
  let encoding_BinaryId : Option Int :=
    match s.id with
    | some i => some i
    | none => catalogLookup cat (s.name ++ "_Encoding_DefaultBinary")
  match encoding_BinaryId with
  | none => (some (CompileError.missingBinaryId s.name), reg, counter)
  | some i =>
    if i == 0 then
      (some (CompileError.missingBinaryId s.name), reg, counter)
    else if s.hasDecode && !s.hasDecodeDebug then
      (some (CompileError.missingDecodeDebug s.name), reg, counter)
    else
      let idAndCounter :=
        if i == RUNTIME_GENERATED_ID then
          (EncodingId.runtimeAssigned counter, counter + 1)
        else
          (EncodingId.fixedId i, counter)
      let ct : CompiledType := ⟨s.name, idAndCounter.1⟩
      (none, (s.name, ct) :: reg, idAndCounter.2)

/-- Reading `encodingDefaultBinary` off an instance constructed from
`opts`: the generated module sets `Classname.prototype.encodingDefaultBinary`
once at load time, so every instance reports the prototype value,
independent of its construction options. -/
def instanceEncodingDefaultBinary (ct : CompiledType)
    (_opts : List (String × Opt)) : EncodingId :=
  ct.encodingDefaultBinary

/-! ## Enumeration coercion layer

`write_enumeration_define` emits, for every enumeration field, a
get/set property pair backed by a hidden slot `$member`.  The setter
coerces through `_enumerations.<Type>.typedEnum.get(value)` and throws
when the coercion yields `undefined`/`null`. -/

/-- Raw values a caller may assign to an enumeration field: a symbolic
member name, a numeric ordinal, or an already-canonical member. -/
inductive Raw where
  | rname (s : String)
  | rord (n : Nat)
  | rmember (s : String) (n : Nat)
deriving DecidableEq, Repr

/-- Modelled from the spec: `typedEnum.get` of the external `Enum`
library behind `_enumerations` — it looks a raw value (symbolic name,
numeric ordinal, or canonical member) up in the enumeration's member
table and yields the canonical member, or nothing when no declared
member matches. -/
def typedEnumGet (members : List (String × Nat)) : Raw → Option (String × Nat)
  | Raw.rname s => members.find? (fun m => m.1 == s)
  | Raw.rord n => members.find? (fun m => m.2 == n)
  | Raw.rmember s n => members.find? (fun m => m.1 == s && m.2 == n)

/-- Whether a raw value matches a declared member (used to state what
"matches no declared member" means). -/
def rawMatches (r : Raw) (m : String × Nat) : Bool :=
  match r with
  | Raw.rname s => m.1 == s
  | Raw.rord n => m.2 == n
  | Raw.rmember s n => m.1 == s && m.2 == n

/-- The generated enumeration property setter
(`set: function(value) { var coercedValue = _enumerations.T.typedEnum.get(value);
if (coercedValue === undefined || coercedValue === null) throw ...;
this.$member = coercedValue; }`): either the canonical member to store,
or the thrown error. -/
def enumPropertySet (members : List (String × Nat)) (value : Raw) :
    Except String (String × Nat) :=
  match typedEnumGet members value with
  | none => Except.error "value cannot be coerced"
  | some coercedValue => Except.ok coercedValue

/-- The hidden slot content after an assignment: updated on success,
untouched when the setter throws. -/
def enumSlotAfterSet (members : List (String × Nat))
    (slot : Option (String × Nat)) (value : Raw) : Option (String × Nat) :=
  match enumPropertySet members value with
  | Except.ok m => some m
  | Except.error _ => slot

/-- The generated enumeration property getter
(`get: function() { return this.$member; }`). -/
def enumPropertyGet (slot : Option (String × Nat)) : Option (String × Nat) :=
  slot

/-! ## Runtime semantics of the generated constructor

The generated constructor calls the base constructor with the same
options (`baseclass.call(this, options)`) and then initialises each
declared field in declaration order via `write_basic`,
`write_enumeration` and `write_complex`.  These model the generated
code for schemas without a `construct_hook`. -/

/-- Collects the numbers of an options array into basic values
(elements of a basic array option). -/
def mapBasicOpts : List Opt → Option (List Value)
  | [] => some []
  | Opt.onum n :: es => (mapBasicOpts es).map (fun vs => Value.basicV n :: vs)
  | _ => none

/-- Modelled from the spec: `initialize_field` of the external
`factories_schema_helpers` — supplied values are used, otherwise
default-value semantics apply: literal defaults verbatim,
generator-valued defaults invoked fresh per instance, otherwise the
builtin type's zero value. -/
def initialize_field (d : FieldDefault) (o : Option Opt) : Option Value :=
  match o with
  | some (Opt.onum n) => some (Value.basicV n)
  | some _ => none
  | none =>
    match d with
    | FieldDefault.dnum n => some (Value.basicV n)
    | FieldDefault.dgen n => some (Value.basicV n)
    | FieldDefault.dnull => some Value.vnull
    | FieldDefault.noDefault => some (Value.basicV 0)

/-- Modelled from the spec: `initialize_field_array` of the external
`factories_schema_helpers` — a supplied sequence is used element-wise;
absent one, arrays default to an empty, freshly-allocated sequence. -/
def initialize_field_array (d : FieldDefault) (o : Option Opt) : Option Value :=
  match o with
  | some (Opt.oarr es) => (mapBasicOpts es).map Value.arrV
  | some _ => none
  | none => some (Value.arrV [])

/-- Converts an options value destined for an enumeration field into
the raw value handed to the coercion layer. -/
def optToRaw : Opt → Option Raw
  | Opt.onum n => some (Raw.rord n)
  | Opt.ostr s => some (Raw.rname s)
  | _ => none

/-- Constructs the elements of a complex array field:
`options.member.map(function(e){ return new FieldType(e); })`.
`recCons` is the nested constructor (one fuel step down). -/
def constructElemsWith (recCons : String → List (String × Opt) → Option Value)
    (ft : String) : List Opt → Option (List Value)
  | [] => some []
  | Opt.oobj l :: es =>
    match recCons ft l with
    | none => none
    | some v =>
      match constructElemsWith recCons ft es with
      | none => none
      | some vs => some (v :: vs)
  | _ => none

/-- Field initialisation performed by the generated constructor, per
category, faithful to `write_basic`, `write_enumeration` and
`write_complex`:
* basic: `initialize_field` / `initialize_field_array`;
* enumeration: `write_enumeration` asserts the field is not an array,
  and the emitted assignment runs through the enumeration property
  setter (coercion via `typedEnum.get`, throw on failure); with no
  supplied raw value the field's literal default is coerced, and with
  no default at all the enumeration's first declared member is used
  (modelled from the spec's Enumeration Coercion Layer);
* complex array: default present means `self.member = null` (the
  source's literal behaviour, see the `todo: fix me` comment),
  otherwise a fresh `[]`; a supplied option must be an array and is
  mapped through the nested constructor;
* complex scalar: when `field.defaultValue === null` or the field type
  is the schema itself, a missing option leaves the field `null`,
  otherwise `new FieldType(options.member)` — which, for a missing
  option, recursively builds the nested type's zero value. -/
def constructFieldWith (recCons : String → List (String × Opt) → Option Value)
    (env : Env) (sname : String) (f : Field) (o : Option Opt) : Option Value :=
  match f.category with
  | Category.basic =>
    if f.isArray then initialize_field_array f.defaultValue o
    else initialize_field f.defaultValue o
  | Category.enumeration =>
    if f.isArray then none
    else
      match lookupEnum env f.fieldType with
      | none => none
      | some members =>
        let raw : Option Raw :=
          match o with
          | some v => optToRaw v
          | none =>
            match f.defaultValue with
            | FieldDefault.dnum n => some (Raw.rord n)
            | FieldDefault.noDefault => (members.head?).map (fun m => Raw.rord m.2)
            | _ => none
        match raw with
        | none => none
        | some r => (typedEnumGet members r).map (fun m => Value.enumV m.2)
  | Category.complex =>
    if f.isArray then
      match o with
      | some (Opt.oarr es) => (constructElemsWith recCons f.fieldType es).map Value.arrV
      | some _ => none
      | none =>
        if f.defaultValue == FieldDefault.noDefault then some (Value.arrV [])
        else some Value.vnull
    else
      if f.defaultValue == FieldDefault.dnull || f.fieldType == sname then
        match o with
        | some (Opt.oobj l) => recCons f.fieldType l
        | some _ => none
        | none => some Value.vnull
      else
        match o with
        | some (Opt.oobj l) => recCons f.fieldType l
        | some _ => none
        | none => recCons f.fieldType []

/-- The field-initialisation loop of the generated constructor, in
declaration order. -/
def constructOwnWith (recCons : String → List (String × Opt) → Option Value)
    (env : Env) (sname : String) :
    List Field → List (String × Opt) → Option (List (String × Value))
  | [], _ => some []
  | f :: fs, opts =>
    match constructFieldWith recCons env sname f (lookupO opts f.name) with
    | none => none
    | some v =>
      match constructOwnWith recCons env sname fs opts with
      | none => none
      | some rest => some ((f.name, v) :: rest)

/-- The generated constructor: base constructor first with the same
options, then each declared field in declaration order.  Fuel bounds
the inheritance/nesting depth; `BaseUAObject` is the external root
whose constructor initialises nothing. -/
def construct : Nat → Env → String → List (String × Opt) → Option Value
  | 0, _, _, _ => none
  | fuel+1, env, tname, opts =>
    if tname == "BaseUAObject" then some Value.rootV
    else
      match lookupSchema env tname with
      | none => none
      | some s =>
        match construct fuel env s.baseType opts with
        | none => none
        | some b =>
          match constructOwnWith (fun ft o => construct fuel env ft o)
                  env s.name s.fields opts with
          | none => none
          | some own => some (Value.objV b own)

/-! ## Runtime semantics of generated encode

For schemas without a custom `encode` hook, the generated
`encode(stream)` calls the base class encode first and then writes each
declared field in declaration order; arrays go through `encodeArray`
(modelled from the spec: an explicit element count followed by the
elements), basic scalars through the builtin codec (modelled from the
spec as writing one token), enumerations through the enumeration codec
(one token holding the ordinal), and complex scalars delegate to the
nested instance's own `encode`. -/

abbrev Wire := List Nat

/-- Element tokens of a basic array (`encodeArray(..., encode_T)`). -/
def encodeBasicToks : List Value → Option Wire
  | [] => some []
  | Value.basicV n :: vs => (encodeBasicToks vs).map (fun w => n :: w)
  | _ => none

/-- Element tokens of an enumeration array. -/
def encodeEnumToks : List Value → Option Wire
  | [] => some []
  | Value.enumV n :: vs => (encodeEnumToks vs).map (fun w => n :: w)
  | _ => none

/-- Encodes the elements of a complex array
(`encodeArray(this.member, stream, function(obj,stream){ obj.encode(stream); })`). -/
def encodeElemsWith (recEnc : String → Value → Option Wire) (ft : String) :
    List Value → Option Wire
  | [] => some []
  | v :: vs =>
    match recEnc ft v, encodeElemsWith recEnc ft vs with
    | some w1, some w2 => some (w1 ++ w2)
    | _, _ => none

/-- Per-field write of the generated encode. -/
def encodeFieldWith (recEnc : String → Value → Option Wire) (env : Env)
    (f : Field) (v : Value) : Option Wire :=
  match f.category with
  | Category.basic =>
    if f.isArray then
      match v with
      | Value.arrV vs => (encodeBasicToks vs).map (fun ts => vs.length :: ts)
      | _ => none
    else
      match v with
      | Value.basicV n => some [n]
      | _ => none
  | Category.enumeration =>
    if f.isArray then
      match v with
      | Value.arrV vs => (encodeEnumToks vs).map (fun ts => vs.length :: ts)
      | _ => none
    else
      match v with
      | Value.enumV n => some [n]
      | _ => none
  | Category.complex =>
    if f.isArray then
      match v with
      | Value.arrV vs => (encodeElemsWith recEnc f.fieldType vs).map (fun ts => vs.length :: ts)
      | _ => none
    else
      recEnc f.fieldType v

/-- The field loop of the generated encode, in declaration order; each
field is read off the instance by name (`this.member`). -/
def encodeOwnWith (recEnc : String → Value → Option Wire) (env : Env) :
    List Field → List (String × Value) → Option Wire
  | [], _ => some []
  | f :: fs, own =>
    match lookupF own f.name with
    | none => none
    | some v =>
      match encodeFieldWith recEnc env f v, encodeOwnWith recEnc env fs own with
      | some w1, some w2 => some (w1 ++ w2)
      | _, _ => none

/-- The generated `encode`: base class encode first
(`Base.prototype.encode.call(this, stream)`), then the declared fields
in declaration order.  `BaseUAObject.prototype.encode` is the external
root encode, which writes nothing (modelled from the spec). -/
def encode : Nat → Env → String → Value → Option Wire
  | 0, _, _, _ => none
  | fuel+1, env, tname, v =>
    if tname == "BaseUAObject" then some []
    else
      match lookupSchema env tname with
      | none => none
      | some s =>
        match v with
        | Value.objV b own =>
          match encode fuel env s.baseType b,
                encodeOwnWith (fun ft x => encode fuel env ft x) env s.fields own with
          | some wb, some wo => some (wb ++ wo)
          | _, _ => none
        | _ => none

/-! ## Runtime semantics of generated decode

For schemas without a custom `decode` hook, the generated
`decode(stream)` mirrors encode: base class decode first, then each
declared field in declaration order.  Basic and enumeration fields are
(re)assigned from the stream; arrays are read through `decodeArray`
into freshly allocated sequences, with complex-array elements built by
`var obj = new FieldType(); obj.decode(stream);`; a scalar complex
field is decoded *in place* via `this.member.decode(stream)` — the
nested instance must already exist on the target object, there is no
allocation here (calling a method on a `null`/absent member fails). -/

/-- Reads `k` basic elements. -/
def decodeBasicToks : Nat → Wire → Option (List Value × Wire)
  | 0, w => some ([], w)
  | _+1, [] => none
  | k+1, t :: w => (decodeBasicToks k w).map (fun p => (Value.basicV t :: p.1, p.2))

/-- Reads `k` enumeration elements, rejecting undeclared ordinals (the
enumeration decode looks the read value up in the member table). -/
def decodeEnumToks (ords : List Nat) : Nat → Wire → Option (List Value × Wire)
  | 0, w => some ([], w)
  | _+1, [] => none
  | k+1, t :: w =>
    if ords.contains t then
      (decodeEnumToks ords k w).map (fun p => (Value.enumV t :: p.1, p.2))
    else none

/-- Decodes `k` elements of a complex array: each element is a freshly
constructed empty instance (`new FieldType()`) decoded in place.
`recCons0` is the nested no-options constructor, `recDec` the nested
decode. -/
def decodeElemsWith (recDec : String → Value → Wire → Option (Value × Wire))
    (recCons0 : String → Option Value) (ft : String) :
    Nat → Wire → Option (List Value × Wire)
  | 0, w => some ([], w)
  | k+1, w =>
    match recCons0 ft with
    | none => none
    | some z =>
      match recDec ft z w with
      | none => none
      | some (v, w1) =>
        match decodeElemsWith recDec recCons0 ft k w1 with
        | none => none
        | some (vs, w2) => some (v :: vs, w2)

/-- Per-field read of the generated decode.  `zown` is the field assoc
of the object being decoded into; only scalar complex fields consult
it (`this.member.decode(stream)`). -/
def decodeFieldWith (recDec : String → Value → Wire → Option (Value × Wire))
    (recCons0 : String → Option Value) (env : Env) (f : Field)
    (zown : List (String × Value)) (w : Wire) : Option (Value × Wire) :=
  match f.category with
  | Category.basic =>
    if f.isArray then
      match w with
      | len :: w1 => (decodeBasicToks len w1).map (fun p => (Value.arrV p.1, p.2))
      | [] => none
    else
      match w with
      | t :: w1 => some (Value.basicV t, w1)
      | [] => none
  | Category.enumeration =>
    match lookupEnum env f.fieldType with
    | none => none
    | some members =>
      if f.isArray then
        match w with
        | len :: w1 =>
          (decodeEnumToks (ordinalsOf members) len w1).map
            (fun p => (Value.arrV p.1, p.2))
        | [] => none
      else
        match w with
        | t :: w1 =>
          if (ordinalsOf members).contains t then some (Value.enumV t, w1)
          else none
        | [] => none
  | Category.complex =>
    if f.isArray then
      match w with
      | len :: w1 =>
        (decodeElemsWith recDec recCons0 f.fieldType len w1).map
          (fun p => (Value.arrV p.1, p.2))
      | [] => none
    else
      match lookupF zown f.name with
      | none => none
      | some zv => recDec f.fieldType zv w

/-- The field loop of the generated decode, in declaration order. -/
def decodeOwnWith (recDec : String → Value → Wire → Option (Value × Wire))
    (recCons0 : String → Option Value) (env : Env) :
    List Field → List (String × Value) → Wire →
    Option (List (String × Value) × Wire)
  | [], _, w => some ([], w)
  | f :: fs, zown, w =>
    match decodeFieldWith recDec recCons0 env f zown w with
    | none => none
    | some (v, w1) =>
      match decodeOwnWith recDec recCons0 env fs zown w1 with
      | none => none
      | some (rest, w2) => some ((f.name, v) :: rest, w2)

/-- The generated `decode`: base class decode first
(`Base.prototype.decode.call(this, stream)`), then the declared fields
in declaration order.  `BaseUAObject.prototype.decode` is the external
root decode, which reads nothing and leaves the object as-is (modelled
from the spec). -/
def decode : Nat → Env → String → Value → Wire → Option (Value × Wire)
  | 0, _, _, _, _ => none
  | fuel+1, env, tname, z, w =>
    if tname == "BaseUAObject" then some (z, w)
    else
      match lookupSchema env tname with
      | none => none
      | some s =>
        match z with
        | Value.objV zb zown =>
          match decode fuel env s.baseType zb w with
          | none => none
          | some (bv, w1) =>
            match decodeOwnWith (fun ft y u => decode fuel env ft y u)
                    (fun ft => construct fuel env ft []) env s.fields zown w1 with
            | none => none
            | some (own, w2) => some (Value.objV bv own, w2)
        | _ => none

/-! ## Well-formed instances and decode-ready targets

`wfInstance` characterises the instances the generated constructor
produces from valid options: the layered object shape matches the
schema's inheritance chain, the own fields are exactly the declared
fields in declaration order, and every field value has the shape of
its category (basic values in basic fields, declared ordinals in
enumeration fields, arrays of well-formed nested instances in complex
arrays, well-formed nested instances in complex scalars).

`decodeReady` characterises targets on which the generated decode can
run: every scalar complex field (transitively) holds a live nested
object, since `this.member.decode(stream)` needs one. -/

/-- All values are basic scalars. -/
def allBasic : List Value → Bool
  | [] => true
  | Value.basicV _ :: vs => allBasic vs
  | _ => false

/-- Shape of a single field value, per category. -/
def wfFieldWith (recWf : String → Value → Bool) (env : Env)
    (f : Field) (v : Value) : Bool :=
  match f.category with
  | Category.basic =>
    if f.isArray then
      match v with
      | Value.arrV vs => allBasic vs
      | _ => false
    else
      match v with
      | Value.basicV _ => true
      | _ => false
  | Category.enumeration =>
    if f.isArray then false
    else
      match v, lookupEnum env f.fieldType with
      | Value.enumV k, some members => (ordinalsOf members).contains k
      | _, _ => false
  | Category.complex =>
    if f.isArray then
      match v with
      | Value.arrV vs => vs.all (fun x => recWf f.fieldType x)
      | _ => false
    else recWf f.fieldType v

/-- The own fields are the declared fields in declaration order, each
with a well-shaped value. -/
def wfOwnWith (recWf : String → Value → Bool) (env : Env) :
    List Field → List (String × Value) → Bool
  | [], [] => true
  | f :: fs, (nm, v) :: own =>
    nm == f.name && wfFieldWith recWf env f v && wfOwnWith recWf env fs own
  | _, _ => false

/-- Well-formed instance of a named type, to fuel depth. -/
def wfInstance : Nat → Env → String → Value → Bool
  | 0, _, _, _ => false
  | fuel+1, env, tname, v =>
    if tname == "BaseUAObject" then
      match v with
      | Value.rootV => true
      | _ => false
    else
      match lookupSchema env tname with
      | none => false
      | some s =>
        match v with
        | Value.objV b own =>
          wfInstance fuel env s.baseType b &&
          wfOwnWith (fun ft x => wfInstance fuel env ft x) env s.fields own
        | _ => false

/-- Readiness of one field of a decode target: scalar complex fields
must hold a decode-ready nested object; everything else is overwritten
by decode and needs nothing. -/
def readyFieldWith (recReady : String → Value → Bool) (f : Field)
    (zown : List (String × Value)) : Bool :=
  if f.category == Category.complex && !f.isArray then
    match lookupF zown f.name with
    | some zv => recReady f.fieldType zv
    | none => false
  else true

def readyOwnWith (recReady : String → Value → Bool) :
    List Field → List (String × Value) → Bool
  | [], _ => true
  | f :: fs, zown => readyFieldWith recReady f zown && readyOwnWith recReady fs zown

/-- Decode-ready target for a named type, to fuel depth. -/
def decodeReady : Nat → Env → String → Value → Bool
  | 0, _, _, _ => false
  | fuel+1, env, tname, z =>
    if tname == "BaseUAObject" then
      match z with
      | Value.rootV => true
      | _ => false
    else
      match lookupSchema env tname with
      | none => false
      | some s =>
        match z with
        | Value.objV zb zown =>
          decodeReady fuel env s.baseType zb &&
          readyOwnWith (fun ft y => decodeReady fuel env ft y) s.fields zown
        | _ => false

/-! ## Environment-level side conditions -/

/-- An enumeration field can be default-initialised: its enumeration is
registered and its default (explicit literal, or the first declared
member when absent) coerces to a declared member. -/
def enumFieldOk (env : Env) (f : Field) : Bool :=
  if f.category == Category.enumeration then
    match lookupEnum env f.fieldType with
    | none => false
    | some members =>
      match f.defaultValue with
      | FieldDefault.dnum n => (ordinalsOf members).contains n
      | FieldDefault.noDefault => !members.isEmpty
      | _ => false
  else true

/-- A scalar complex field is non-nullable: neither declared with a
`null` default nor self-referencing (the two cases in which
`write_complex` leaves a missing option as `null`). -/
def nonNullField (sname : String) (f : Field) : Bool :=
  if f.category == Category.complex && !f.isArray then
    !(f.defaultValue == FieldDefault.dnull) && !(f.fieldType == sname)
  else true

/-- Schema-level sanity required by the round-trip proofs: distinct
field names per schema and default-initialisable enumeration fields. -/
def goodEnv (env : Env) : Bool :=
  env.schemas.all (fun s =>
    nodupB (s.fields.map Field.name) &&
    s.fields.all (fun f => enumFieldOk env f))

/-- Every scalar complex field of every schema is non-nullable. -/
def nonNullableEnv (env : Env) : Bool :=
  env.schemas.all (fun s => s.fields.all (fun f => nonNullField s.name f))

/-! ## Allocation model for array-field initialisation

The value semantics above cannot express sharing, so the
freshness/aliasing behaviour of the generated constructor's array
initialisation is modelled separately with an explicit heap of array
cells.  Addresses are indices into the heap; allocation appends. -/

/-- Heap of array cells; an address is an index, a cell holds the
array's elements (abstracted to numbers). -/
abbrev Heap := List (List Nat)

def heapAlloc (h : Heap) (content : List Nat) : Nat × Heap :=
  (h.length, h ++ [content])

def heapGet (h : Heap) (a : Nat) : Option (List Nat) :=
  h[a]?

def heapSet (h : Heap) (a : Nat) (content : List Nat) : Heap :=
  h.set a content

/-- What the constructor stores in an array field that received no
option value: a freshly allocated sequence, `null`, or a shared
reference to a literal default (the spec's "literal defaults used
verbatim"). -/
inductive ArrInit where
  | allocated (addr : Nat)
  | nullInit
  | sharedLit (n : Nat)
deriving DecidableEq, Repr

/-- Array-field initialisation with no supplied option, against the
heap.  Faithful to the array branches of `write_complex` (a field
carrying any `defaultValue` property is set to `null` — see the
source's `todo: fix me` comment — and otherwise to a fresh `[]`) and
to `write_basic`, whose `initialize_field_array` is external and
modelled from the spec: no default allocates a fresh empty sequence,
a generator default invokes the generator fresh per instance (fresh
allocation), a literal default is used verbatim (shared). -/
def initArrayField (h : Heap) (f : Field) : ArrInit × Heap :=
  match f.category with
  | Category.complex =>
    if f.defaultValue == FieldDefault.noDefault then
      let ah := heapAlloc h []
      (ArrInit.allocated ah.1, ah.2)
    else (ArrInit.nullInit, h)
  | Category.basic =>
    match f.defaultValue with
    | FieldDefault.noDefault =>
      let ah := heapAlloc h []
      (ArrInit.allocated ah.1, ah.2)
    | FieldDefault.dgen _ =>
      let ah := heapAlloc h []
      (ArrInit.allocated ah.1, ah.2)
    | FieldDefault.dnum n => (ArrInit.sharedLit n, h)
    | FieldDefault.dnull => (ArrInit.nullInit, h)
  | Category.enumeration => (ArrInit.nullInit, h)

/-- The array fields of one constructor run with no options: walks the
declared fields in order, initialising each array field against the
heap (non-array fields own no heap cell and are skipped). -/
def constructArrayFields : List Field → Heap → List (String × ArrInit) × Heap
  | [], h => ([], h)
  | f :: fs, h =>
    if f.isArray then
      let ih := initArrayField h f
      let rest := constructArrayFields fs ih.2
      ((f.name, ih.1) :: rest.1, rest.2)
    else constructArrayFields fs h

/-- Lookup in the array-field record of an instance. -/
def lookupA (l : List (String × ArrInit)) (n : String) : Option ArrInit :=
  (l.find? (fun p => p.1 == n)).map (fun p => p.2)

/-- The array-field defaults covered by the claim: no default, or a
generator default (fresh per instance); complex arrays additionally
must carry no default at all (any default makes the source store
`null`). -/
def freshArrayField (f : Field) : Bool :=
  f.isArray &&
  (match f.category, f.defaultValue with
   | Category.basic, FieldDefault.noDefault => true
   | Category.basic, FieldDefault.dgen _ => true
   | Category.complex, FieldDefault.noDefault => true
   | _, _ => false)

/-! ## Concrete sample data used by witnesses and counterexamples -/

/-- A plain nested structure: one basic scalar field. -/
def schemaC : Schema :=
  ⟨"C", "BaseUAObject",
   [⟨"cx", "UInt32", Category.basic, false, FieldDefault.noDefault⟩],
   some 11, false, false, false⟩

/-- Middle of the inheritance chain: one basic scalar field. -/
def schemaB : Schema :=
  ⟨"B", "BaseUAObject",
   [⟨"x", "UInt32", Category.basic, false, FieldDefault.noDefault⟩],
   some 12, false, false, false⟩

/-- Two levels of inheritance (A extends B extends BaseUAObject) with
an enumeration field, a basic array, a scalar complex field and a
complex array. -/
def schemaA : Schema :=
  ⟨"A", "B",
   [⟨"e", "Color", Category.enumeration, false, FieldDefault.noDefault⟩,
    ⟨"xs", "UInt32", Category.basic, true, FieldDefault.noDefault⟩,
    ⟨"child", "C", Category.complex, false, FieldDefault.noDefault⟩,
    ⟨"kids", "C", Category.complex, true, FieldDefault.noDefault⟩],
   some 13, false, false, false⟩

/-- Sample environment for round-trip witnesses. -/
def sampleEnv : Env :=
  ⟨[schemaA, schemaB, schemaC], [("Color", [("Red", 1), ("Green", 5)])]⟩

/-- Valid options for an `A` instance covering every field category. -/
def sampleOpts : List (String × Opt) :=
  [("x", Opt.onum 7), ("e", Opt.ostr "Green"),
   ("xs", Opt.oarr [Opt.onum 3, Opt.onum 4]),
   ("child", Opt.oobj [("cx", Opt.onum 9)]),
   ("kids", Opt.oarr [Opt.oobj [("cx", Opt.onum 1)], Opt.oobj []])]

/-- The instance `new A(sampleOpts)` builds. -/
def sampleO : Value :=
  Value.objV (Value.objV Value.rootV [("x", Value.basicV 7)])
    [("e", Value.enumV 5),
     ("xs", Value.arrV [Value.basicV 3, Value.basicV 4]),
     ("child", Value.objV Value.rootV [("cx", Value.basicV 9)]),
     ("kids", Value.arrV [Value.objV Value.rootV [("cx", Value.basicV 1)],
                          Value.objV Value.rootV [("cx", Value.basicV 0)]])]

/-- The zero instance `new A()`. -/
def sampleZ : Value :=
  Value.objV (Value.objV Value.rootV [("x", Value.basicV 0)])
    [("e", Value.enumV 1),
     ("xs", Value.arrV []),
     ("child", Value.objV Value.rootV [("cx", Value.basicV 0)]),
     ("kids", Value.arrV [])]

/-- The wire image of `sampleO`. -/
def sampleWire : Wire := [7, 5, 2, 3, 4, 9, 2, 1, 0]

/-- A schema whose scalar complex field is nullable
(`defaultValue: null`), the case in which `write_complex` leaves a
missing option as `null`. -/
def schemaA2 : Schema :=
  ⟨"A2", "BaseUAObject",
   [⟨"child", "C", Category.complex, false, FieldDefault.dnull⟩],
   some 14, false, false, false⟩

/-- Environment exhibiting the nullable-field round-trip failure. -/
def nullableEnv : Env := ⟨[schemaA2, schemaC], []⟩

/-- `new A2({child: {cx: 9}})`: the nullable field supplied. -/
def nullableO : Value :=
  Value.objV Value.rootV [("child", Value.objV Value.rootV [("cx", Value.basicV 9)])]

/-- `new A2()`: the nullable field stays `null`. -/
def nullableZ : Value :=
  Value.objV Value.rootV [("child", Value.vnull)]

/-- A decode target for `A2` whose `child` member is a live object. -/
def nullableZalloc : Value :=
  Value.objV Value.rootV [("child", Value.objV Value.rootV [("cx", Value.basicV 0)])]

/-- A schema carrying a fully custom `encode` hook, a standard decode,
and no `decode_debug`. -/
def customEncodeSchema : Schema :=
  ⟨"Foo", "BaseUAObject", [], some 42, true, false, false⟩

/-- A schema carrying a custom `decode` hook and no `decode_debug`. -/
def customDecodeSchema : Schema :=
  ⟨"Bar", "BaseUAObject", [], some 43, false, true, false⟩

/-- A schema declared with the runtime-assignment sentinel id. -/
def runtimeIdSchema : Schema :=
  ⟨"Baz", "BaseUAObject", [], some RUNTIME_GENERATED_ID, false, false, false⟩

/-- A schema with neither an explicit id nor a catalog entry. -/
def noIdSchema : Schema :=
  ⟨"Qux", "BaseUAObject", [], none, false, false, false⟩

/-- Field list used by the default-independence witness: a
generator-defaulted basic array, a no-default complex array, and a
non-array field in between. -/
def arrayFieldsSample : List Field :=
  [⟨"ns", "UInt32", Category.basic, true, FieldDefault.dgen 0⟩,
   ⟨"k", "UInt32", Category.basic, false, FieldDefault.noDefault⟩,
   ⟨"cs", "C", Category.complex, true, FieldDefault.noDefault⟩]

/-! # Theorems -/

/-! ## Supporting lemmas -/

theorem typedEnumGet_eq_find (members : List (String × Nat)) (r : Raw) :
    typedEnumGet members r = members.find? (fun m => rawMatches r m) := by
  cases r <;> rfl

theorem memB_of_mem : ∀ (fs : List Field) (f : Field), f ∈ fs →
    memB f.name (fs.map Field.name) = true := by
  intro fs
  induction fs with
  | nil => intro f hf; cases hf
  | cons g gs ih =>
    intro f hf
    rcases List.mem_cons.mp hf with heq | hmem
    · subst heq; simp [memB]
    · simp [memB, ih f hmem]

theorem initArrayField_growth (h : Heap) (f : Field) :
    h.length ≤ (initArrayField h f).2.length ∧
    (∀ a : Nat, a < h.length → heapGet (initArrayField h f).2 a = heapGet h a) := by
  rcases f with ⟨nm, ft, cat, arr, d⟩
  cases cat <;> cases d <;>
    simp_all [initArrayField, heapAlloc, heapGet] <;>
    intro a ha <;> rw [List.getElem?_append_left ha] <;>
    exact List.getElem?_eq_getElem ha

theorem initArrayField_fresh (h : Heap) (f : Field)
    (hfresh : freshArrayField f = true) :
    initArrayField h f = (ArrInit.allocated h.length, h ++ [[]]) := by
  rcases f with ⟨nm, ft, cat, arr, d⟩
  unfold freshArrayField at hfresh
  cases cat <;> cases d <;> simp_all [initArrayField, heapAlloc]

theorem constructArrayFields_growth : ∀ (fields : List Field) (h : Heap),
    h.length ≤ (constructArrayFields fields h).2.length ∧
    (∀ a, a < h.length →
      heapGet (constructArrayFields fields h).2 a = heapGet h a) := by
  intro fields
  induction fields with
  | nil => intro h; exact ⟨le_refl _, fun a _ => rfl⟩
  | cons f fs ih =>
    intro h
    by_cases harr : f.isArray = true
    · obtain ⟨h1len, h1pres⟩ := initArrayField_growth h f
      obtain ⟨h2len, h2pres⟩ := ih (initArrayField h f).2
      simp only [constructArrayFields, harr, if_true]
      exact ⟨le_trans h1len h2len,
        fun a ha => ((h2pres a (lt_of_lt_of_le ha h1len)).trans (h1pres a ha))⟩
    · simp only [constructArrayFields, harr, if_false]
      exact ih h

theorem constructArrayFields_fresh_lookup :
    ∀ (fields : List Field) (h : Heap) (f : Field),
    f ∈ fields → freshArrayField f = true →
    nodupB (fields.map Field.name) = true →
    ∃ a, lookupA (constructArrayFields fields h).1 f.name =
           some (ArrInit.allocated a) ∧
      h.length ≤ a ∧ a < (constructArrayFields fields h).2.length ∧
      heapGet (constructArrayFields fields h).2 a = some [] := by
  intro fields
  induction fields with
  | nil => intro h f hf; cases hf
  | cons g fs ih =>
    intro h f hf hfresh hnodup
    have hnd : memB g.name (fs.map Field.name) = false ∧
        nodupB (fs.map Field.name) = true := by
      simpa [nodupB, Bool.and_eq_true, Bool.not_eq_true'] using hnodup
    rcases List.mem_cons.mp hf with heq | hmem
    · subst heq
      have harr : f.isArray = true := by
        by_cases harr : f.isArray = true
        · exact harr
        · simp [freshArrayField, harr] at hfresh
      have halloc := initArrayField_fresh h f hfresh
      obtain ⟨hlen, hpres⟩ := constructArrayFields_growth fs (h ++ [[]])
      refine ⟨h.length, ?_, le_refl _, ?_, ?_⟩
      · simp [constructArrayFields, harr, halloc, lookupA, List.find?]
      · simp only [constructArrayFields, harr, if_true, halloc]
        have : h.length < (h ++ [[]]).length := by simp
        omega
      · simp only [constructArrayFields, harr, if_true, halloc]
        have hlt : h.length < (h ++ [[]]).length := by simp
        rw [hpres h.length hlt]
        simp [heapGet]
    · have hfn : memB f.name (fs.map Field.name) = true := memB_of_mem fs f hmem
      have hne : (g.name == f.name) = false := by
        by_cases hgf : g.name = f.name
        · rw [hgf] at hnd
          rw [hnd.1] at hfn
          cases hfn
        · exact beq_eq_false_iff_ne.mpr hgf
      by_cases harr : g.isArray = true
      · obtain ⟨a, hla, hlo, hhi, hc⟩ := ih (initArrayField h g).2 f hmem hfresh hnd.2
        have hgrow := (initArrayField_growth h g).1
        refine ⟨a, ?_, by omega, ?_, ?_⟩
        · simpa [constructArrayFields, harr, lookupA, List.find?, hne] using hla
        · simpa [constructArrayFields, harr] using hhi
        · simpa [constructArrayFields, harr] using hc
      · obtain ⟨a, hla, hlo, hhi, hc⟩ := ih h f hmem hfresh hnd.2
        exact ⟨a, by simpa [constructArrayFields, harr] using hla,
          hlo, by simpa [constructArrayFields, harr] using hhi,
          by simpa [constructArrayFields, harr] using hc⟩

/-! ## Round-trip machinery -/

theorem encodeBasicToks_roundtrip :
    ∀ (vs : List Value) (ts rest : Wire),
    encodeBasicToks vs = some ts →
    decodeBasicToks vs.length (ts ++ rest) = some (vs, rest) := by
  intro vs
  induction vs with
  | nil =>
    intro ts rest h
    simp only [encodeBasicToks, Option.some.injEq] at h
    subst h
    rfl
  | cons v vs ih =>
    intro ts rest h
    cases v <;> simp [encodeBasicToks, Option.map_eq_some'] at h
    obtain ⟨w1, hw1, hts⟩ := h
    subst hts
    simp [decodeBasicToks, ih w1 rest hw1]

theorem lookupF_cons_ne (nm : String) (v : Value) (l : List (String × Value))
    (n : String) (hne : (nm == n) = false) :
    lookupF ((nm, v) :: l) n = lookupF l n := by
  simp [lookupF, List.find?, hne]

theorem lookupF_cons_self (nm : String) (v : Value)
    (l : List (String × Value)) :
    lookupF ((nm, v) :: l) nm = some v := by
  simp [lookupF, List.find?]

theorem memB_cons_false {nm x : String} {xs : List String}
    (h : memB nm (x :: xs) = false) :
    (nm == x) = false ∧ memB nm xs = false := by
  simpa [memB, Bool.or_eq_false_iff] using h

theorem encodeOwnWith_skip (recEnc : String → Value → Option Wire) (env : Env)
    (nm : String) (v : Value) :
    ∀ (fields : List Field) (own : List (String × Value)),
    memB nm (fields.map Field.name) = false →
    encodeOwnWith recEnc env fields ((nm, v) :: own) =
      encodeOwnWith recEnc env fields own := by
  intro fields
  induction fields with
  | nil => intro own _; rfl
  | cons f fs ih =>
    intro own hmem
    obtain ⟨h1, h2⟩ := memB_cons_false hmem
    simp only [encodeOwnWith, lookupF_cons_ne nm v own f.name h1, ih own h2]

theorem readyOwnWith_skip (recReady : String → Value → Bool)
    (nm : String) (v : Value) :
    ∀ (fields : List Field) (zown : List (String × Value)),
    memB nm (fields.map Field.name) = false →
    readyOwnWith recReady fields ((nm, v) :: zown) =
      readyOwnWith recReady fields zown := by
  intro fields
  induction fields with
  | nil => intro zown _; rfl
  | cons f fs ih =>
    intro zown hmem
    obtain ⟨h1, h2⟩ := memB_cons_false hmem
    simp only [readyOwnWith, readyFieldWith,
      lookupF_cons_ne nm v zown f.name h1, ih zown h2]

theorem decodeElemsWith_roundtrip
    (recEnc : String → Value → Option Wire)
    (recDec : String → Value → Wire → Option (Value × Wire))
    (recCons0 : String → Option Value)
    (recWf recReady : String → Value → Bool) (ft : String)
    (ih : ∀ ft o z w rest, recWf ft o = true → recReady ft z = true →
          recEnc ft o = some w → recDec ft z (w ++ rest) = some (o, rest))
    (ihCons : ∀ ft o, recWf ft o = true →
          ∃ z, recCons0 ft = some z ∧ recReady ft z = true) :
    ∀ (vs : List Value) (ts rest : Wire),
    vs.all (fun x => recWf ft x) = true →
    encodeElemsWith recEnc ft vs = some ts →
    decodeElemsWith recDec recCons0 ft vs.length (ts ++ rest) = some (vs, rest) := by
  intro vs
  induction vs with
  | nil =>
    intro ts rest _ h
    simp only [encodeElemsWith, Option.some.injEq] at h
    subst h
    rfl
  | cons v vs ih2 =>
    intro ts rest hall henc
    have hv : recWf ft v = true := by
      simp only [List.all_cons, Bool.and_eq_true] at hall
      exact hall.1
    have hvs : vs.all (fun x => recWf ft x) = true := by
      simp only [List.all_cons, Bool.and_eq_true] at hall
      exact hall.2
    simp only [encodeElemsWith] at henc
    cases h1 : recEnc ft v with
    | none => rw [h1] at henc; cases henc
    | some w1 =>
      cases h2 : encodeElemsWith recEnc ft vs with
      | none => rw [h1, h2] at henc; cases henc
      | some w2 =>
        rw [h1, h2] at henc
        injection henc with hts
        subst hts
        obtain ⟨z, hz, hzr⟩ := ihCons ft v hv
        have e1 : recDec ft z (w1 ++ (w2 ++ rest)) = some (v, w2 ++ rest) :=
          ih ft v z w1 (w2 ++ rest) hv hzr h1
        have e2 : decodeElemsWith recDec recCons0 ft vs.length (w2 ++ rest) =
            some (vs, rest) := ih2 w2 rest hvs h2
        simp [decodeElemsWith, hz, List.append_assoc, e1, e2]

theorem decodeFieldWith_roundtrip
    (recEnc : String → Value → Option Wire)
    (recDec : String → Value → Wire → Option (Value × Wire))
    (recCons0 : String → Option Value)
    (recWf recReady : String → Value → Bool) (env : Env)
    (ih : ∀ ft o z w rest, recWf ft o = true → recReady ft z = true →
          recEnc ft o = some w → recDec ft z (w ++ rest) = some (o, rest))
    (ihCons : ∀ ft o, recWf ft o = true →
          ∃ z, recCons0 ft = some z ∧ recReady ft z = true)
    (f : Field) (v : Value) (zown : List (String × Value)) (w rest : Wire)
    (hwf : wfFieldWith recWf env f v = true)
    (hready : readyFieldWith recReady f zown = true)
    (henc : encodeFieldWith recEnc env f v = some w) :
    decodeFieldWith recDec recCons0 env f zown (w ++ rest) = some (v, rest) := by
  cases hcat : f.category with
  | basic =>
    cases harr : f.isArray with
    | true =>
      cases v <;> simp [encodeFieldWith, hcat, harr, Option.map_eq_some'] at henc
      rename_i vs
      obtain ⟨ts, hts, hw⟩ := henc
      subst hw
      simp [decodeFieldWith, hcat, harr, encodeBasicToks_roundtrip vs ts rest hts]
    | false =>
      cases v <;> simp [encodeFieldWith, hcat, harr] at henc
      rename_i n
      subst henc
      simp [decodeFieldWith, hcat, harr]
  | enumeration =>
    cases harr : f.isArray with
    | true => simp [wfFieldWith, hcat, harr] at hwf
    | false =>
      cases hm : lookupEnum env f.fieldType with
      | none => cases v <;> simp [wfFieldWith, hcat, harr, hm] at hwf
      | some members =>
        cases v <;> simp [wfFieldWith, hcat, harr, hm] at hwf
        rename_i k
        simp [encodeFieldWith, hcat, harr] at henc
        subst henc
        simp [decodeFieldWith, hcat, harr, hm, hwf]
  | complex =>
    cases harr : f.isArray with
    | true =>
      cases v <;> simp [wfFieldWith, hcat, harr, List.all_eq_true] at hwf
      rename_i vs
      have hwf' : vs.all (fun x => recWf f.fieldType x) = true :=
        List.all_eq_true.mpr hwf
      simp [encodeFieldWith, hcat, harr, Option.map_eq_some'] at henc
      obtain ⟨ts, hts, hw⟩ := henc
      subst hw
      simp [decodeFieldWith, hcat, harr,
        decodeElemsWith_roundtrip recEnc recDec recCons0 recWf recReady
          f.fieldType ih ihCons vs ts rest hwf' hts]
    | false =>
      have hwf' : recWf f.fieldType v = true := by
        simpa [wfFieldWith, hcat, harr] using hwf
      have henc' : recEnc f.fieldType v = some w := by
        simpa [encodeFieldWith, hcat, harr] using henc
      cases hz : lookupF zown f.name with
      | none => simp [readyFieldWith, hcat, harr, hz] at hready
      | some zv =>
        have hready' : recReady f.fieldType zv = true := by
          simpa [readyFieldWith, hcat, harr, hz] using hready
        simp [decodeFieldWith, hcat, harr, hz,
          ih f.fieldType v zv w rest hwf' hready' henc']

theorem decodeOwnWith_roundtrip
    (recEnc : String → Value → Option Wire)
    (recDec : String → Value → Wire → Option (Value × Wire))
    (recCons0 : String → Option Value)
    (recWf recReady : String → Value → Bool) (env : Env)
    (ih : ∀ ft o z w rest, recWf ft o = true → recReady ft z = true →
          recEnc ft o = some w → recDec ft z (w ++ rest) = some (o, rest))
    (ihCons : ∀ ft o, recWf ft o = true →
          ∃ z, recCons0 ft = some z ∧ recReady ft z = true) :
    ∀ (fields : List Field) (own zown : List (String × Value)) (w rest : Wire),
    nodupB (fields.map Field.name) = true →
    wfOwnWith recWf env fields own = true →
    readyOwnWith recReady fields zown = true →
    encodeOwnWith recEnc env fields own = some w →
    decodeOwnWith recDec recCons0 env fields zown (w ++ rest) =
      some (own, rest) := by
  intro fields
  induction fields with
  | nil =>
    intro own zown w rest _ hwf _ henc
    cases own with
    | nil =>
      simp only [encodeOwnWith, Option.some.injEq] at henc
      subst henc
      rfl
    | cons p own' => simp [wfOwnWith] at hwf
  | cons f fs ihf =>
    intro own zown w rest hnodup hwf hready henc
    cases own with
    | nil => simp [wfOwnWith] at hwf
    | cons p own' =>
      obtain ⟨nm, v⟩ := p
      simp only [wfOwnWith, Bool.and_eq_true] at hwf
      obtain ⟨⟨hnm, hwfF⟩, hwfO⟩ := hwf
      have hnm' : nm = f.name := eq_of_beq hnm
      subst hnm'
      have hnd : (memB f.name (fs.map Field.name)) = false ∧
          nodupB (fs.map Field.name) = true := by
        simpa [nodupB, Bool.and_eq_true, Bool.not_eq_true'] using hnodup
      simp only [readyOwnWith, Bool.and_eq_true] at hready
      obtain ⟨hrf, hro⟩ := hready
      simp only [encodeOwnWith, lookupF_cons_self,
        encodeOwnWith_skip recEnc env f.name v fs own' hnd.1] at henc
      cases h1 : encodeFieldWith recEnc env f v with
      | none => rw [h1] at henc; cases henc
      | some w1 =>
        cases h2 : encodeOwnWith recEnc env fs own' with
        | none => rw [h1, h2] at henc; cases henc
        | some w2 =>
          rw [h1, h2] at henc
          injection henc with hw
          subst hw
          simp only [decodeOwnWith, List.append_assoc,
            decodeFieldWith_roundtrip recEnc recDec recCons0 recWf recReady env
              ih ihCons f v zown w1 (w2 ++ rest) hwfF hrf h1,
            ihf own' zown w2 rest hnd.2 hwfO hro h2]

theorem goodEnv_schema (env : Env) (t : String) (s : Schema)
    (hg : goodEnv env = true) (hs : lookupSchema env t = some s) :
    nodupB (s.fields.map Field.name) = true ∧
    ∀ f ∈ s.fields, enumFieldOk env f = true := by
  have hmem : s ∈ env.schemas := List.mem_of_find?_eq_some hs
  have := List.all_eq_true.mp hg s hmem
  simp only [Bool.and_eq_true] at this
  exact ⟨this.1, fun f hf => List.all_eq_true.mp this.2 f hf⟩

theorem nonNullableEnv_schema (env : Env) (t : String) (s : Schema)
    (hnn : nonNullableEnv env = true) (hs : lookupSchema env t = some s) :
    ∀ f ∈ s.fields, nonNullField s.name f = true := by
  have hmem : s ∈ env.schemas := List.mem_of_find?_eq_some hs
  exact fun f hf => List.all_eq_true.mp (List.all_eq_true.mp hnn s hmem) f hf

theorem typedEnumGet_ord_isSome (members : List (String × Nat)) (n : Nat)
    (h : (ordinalsOf members).contains n = true) :
    (typedEnumGet members (Raw.rord n)).isSome = true := by
  unfold typedEnumGet
  rw [List.find?_isSome]
  have hmem : n ∈ ordinalsOf members := by
    simpa using h
  obtain ⟨m, hm, hmn⟩ := List.mem_map.mp hmem
  exact ⟨m, hm, by simp [hmn]⟩

theorem constructOwnWith_empty_ready
    (recCons : String → List (String × Opt) → Option Value)
    (recWf recReady : String → Value → Bool) (env : Env) (sname : String)
    (ihCons : ∀ ft o, recWf ft o = true →
        ∃ z, recCons ft [] = some z ∧ recReady ft z = true) :
    ∀ (fields : List Field) (own : List (String × Value)),
    nodupB (fields.map Field.name) = true →
    (∀ f ∈ fields, enumFieldOk env f = true) →
    (∀ f ∈ fields, nonNullField sname f = true) →
    wfOwnWith recWf env fields own = true →
    ∃ zown, constructOwnWith recCons env sname fields [] = some zown ∧
      readyOwnWith recReady fields zown = true := by
  intro fields
  induction fields with
  | nil =>
    intro own _ _ _ _
    exact ⟨[], rfl, rfl⟩
  | cons f fs ihf =>
    intro own hnodup henum hnonnull hwf
    cases own with
    | nil => simp [wfOwnWith] at hwf
    | cons p own' =>
      obtain ⟨nm, v⟩ := p
      simp only [wfOwnWith, Bool.and_eq_true] at hwf
      obtain ⟨⟨_, hwfF⟩, hwfO⟩ := hwf
      have hnd : (memB f.name (fs.map Field.name)) = false ∧
          nodupB (fs.map Field.name) = true := by
        simpa [nodupB, Bool.and_eq_true, Bool.not_eq_true'] using hnodup
      obtain ⟨zrest, hzrest, hzrestr⟩ := ihf own' hnd.2
        (fun g hg => henum g (List.mem_cons_of_mem f hg))
        (fun g hg => hnonnull g (List.mem_cons_of_mem f hg)) hwfO
      have hfe : enumFieldOk env f = true := henum f (List.mem_cons_self f fs)
      have hfn : nonNullField sname f = true := hnonnull f (List.mem_cons_self f fs)
      have hfield : ∃ zv, constructFieldWith recCons env sname f none = some zv ∧
          readyFieldWith recReady f ((f.name, zv) :: zrest) = true := by
        cases hcat : f.category with
        | basic =>
          have hrf : ∀ zv, readyFieldWith recReady f ((f.name, zv) :: zrest) = true := by
            intro zv
            simp [readyFieldWith, hcat]
          cases harr : f.isArray with
          | true =>
            exact ⟨Value.arrV [],
              by simp [constructFieldWith, hcat, harr, initialize_field_array], hrf _⟩
          | false =>
            cases hd : f.defaultValue with
            | noDefault =>
              exact ⟨Value.basicV 0,
                by simp [constructFieldWith, hcat, harr, initialize_field, hd], hrf _⟩
            | dnull =>
              exact ⟨Value.vnull,
                by simp [constructFieldWith, hcat, harr, initialize_field, hd], hrf _⟩
            | dnum n =>
              exact ⟨Value.basicV n,
                by simp [constructFieldWith, hcat, harr, initialize_field, hd], hrf _⟩
            | dgen n =>
              exact ⟨Value.basicV n,
                by simp [constructFieldWith, hcat, harr, initialize_field, hd], hrf _⟩
        | enumeration =>
          have hrf : ∀ zv, readyFieldWith recReady f ((f.name, zv) :: zrest) = true := by
            intro zv
            simp [readyFieldWith, hcat]
          cases harr : f.isArray with
          | true => simp [wfFieldWith, hcat, harr] at hwfF
          | false =>
            cases hm : lookupEnum env f.fieldType with
            | none => simp [enumFieldOk, hcat, hm] at hfe
            | some members =>
              cases hd : f.defaultValue with
              | dnum n =>
                have hc : (ordinalsOf members).contains n = true := by
                  simpa [enumFieldOk, hcat, hm, hd] using hfe
                obtain ⟨m, hm2⟩ :=
                  Option.isSome_iff_exists.mp (typedEnumGet_ord_isSome members n hc)
                exact ⟨Value.enumV m.2,
                  by simp [constructFieldWith, hcat, harr, hm, hd, hm2], hrf _⟩
              | noDefault =>
                have hne : members.isEmpty = false := by
                  simpa [enumFieldOk, hcat, hm, hd] using hfe
                cases members with
                | nil => simp [List.isEmpty] at hne
                | cons m ms =>
                  exact ⟨Value.enumV m.2,
                    by simp [constructFieldWith, hcat, harr, hm, hd, typedEnumGet,
                      List.find?], hrf _⟩
              | dnull => simp [enumFieldOk, hcat, hm, hd] at hfe
              | dgen k => simp [enumFieldOk, hcat, hm, hd] at hfe
        | complex =>
          cases harr : f.isArray with
          | true =>
            have hrf : ∀ zv, readyFieldWith recReady f ((f.name, zv) :: zrest) = true := by
              intro zv
              simp [readyFieldWith, hcat, harr]
            cases hdef : (f.defaultValue == FieldDefault.noDefault) with
            | true =>
              exact ⟨Value.arrV [],
                by simp [constructFieldWith, hcat, harr, hdef], hrf _⟩
            | false =>
              exact ⟨Value.vnull,
                by simp [constructFieldWith, hcat, harr, hdef], hrf _⟩
          | false =>
            have h' : (f.defaultValue == FieldDefault.dnull) = false ∧
                (f.fieldType == sname) = false := by
              simpa [nonNullField, hcat, harr, Bool.and_eq_true,
                Bool.not_eq_true'] using hfn
            have hcond : (f.defaultValue == FieldDefault.dnull ||
                f.fieldType == sname) = false := by
              simp [Bool.or_eq_false_iff, h'.1, h'.2]
            have hwfv : recWf f.fieldType v = true := by
              simpa [wfFieldWith, hcat, harr] using hwfF
            obtain ⟨zv, hzv, hzvr⟩ := ihCons f.fieldType v hwfv
            refine ⟨zv, ?_, ?_⟩
            · simp [constructFieldWith, hcat, harr, hcond, hzv]
            · simp [readyFieldWith, hcat, harr, lookupF_cons_self, hzvr]
      obtain ⟨zv, hzv, hzvr⟩ := hfield
      refine ⟨(f.name, zv) :: zrest, ?_, ?_⟩
      · simp only [constructOwnWith, lookupO, List.find?_nil, Option.map_none',
          hzv, hzrest]
      · simp only [readyOwnWith, Bool.and_eq_true]
        exact ⟨hzvr,
          by rw [readyOwnWith_skip recReady f.name zv fs zrest hnd.1]; exact hzrestr⟩

theorem construct_empty_ready :
    ∀ (fuel : Nat) (env : Env), goodEnv env = true → nonNullableEnv env = true →
    ∀ (tname : String) (o : Value),
    wfInstance fuel env tname o = true →
    ∃ z, construct fuel env tname [] = some z ∧
      decodeReady fuel env tname z = true := by
  intro fuel
  induction fuel with
  | zero =>
    intro env _ _ t o hwf
    cases hwf
  | succ fuel ih =>
    intro env hg hnn tname o hwf
    cases ht : (tname == "BaseUAObject") with
    | true =>
      refine ⟨Value.rootV, ?_, ?_⟩ <;> simp [construct, decodeReady, ht]
    | false =>
      cases hs : lookupSchema env tname with
      | none => simp [wfInstance, ht, hs] at hwf
      | some s =>
        cases o <;> simp [wfInstance, ht, hs] at hwf
        rename_i b own
        obtain ⟨zb, hzb, hzbr⟩ := ih env hg hnn s.baseType b hwf.1
        obtain ⟨hnodup, henum⟩ := goodEnv_schema env tname s hg hs
        have hnonnull := nonNullableEnv_schema env tname s hnn hs
        obtain ⟨zown, hzown, hzownr⟩ :=
          constructOwnWith_empty_ready (fun ft o => construct fuel env ft o)
            (fun ft x => wfInstance fuel env ft x)
            (fun ft y => decodeReady fuel env ft y) env s.name
            (fun ft o hw => ih env hg hnn ft o hw)
            s.fields own hnodup henum hnonnull hwf.2
        refine ⟨Value.objV zb zown, ?_, ?_⟩
        · simp [construct, ht, hs, hzb, hzown]
        · simp [decodeReady, ht, hs, hzbr, hzownr]

theorem decode_encode_roundtrip_aux :
    ∀ (fuel : Nat) (env : Env), goodEnv env = true → nonNullableEnv env = true →
    ∀ (tname : String) (o z : Value) (w rest : Wire),
    wfInstance fuel env tname o = true →
    decodeReady fuel env tname z = true →
    encode fuel env tname o = some w →
    decode fuel env tname z (w ++ rest) = some (o, rest) := by
  intro fuel
  induction fuel with
  | zero =>
    intro env _ _ t o z w rest hwf
    cases hwf
  | succ fuel ih =>
    intro env hg hnn tname o z w rest hwf hready henc
    cases ht : (tname == "BaseUAObject") with
    | true =>
      cases o <;> simp [wfInstance, ht] at hwf
      cases z <;> simp [decodeReady, ht] at hready
      simp [encode, ht] at henc
      subst henc
      simp [decode, ht]
    | false =>
      cases hs : lookupSchema env tname with
      | none => simp [wfInstance, ht, hs] at hwf
      | some s =>
        cases o <;> simp [wfInstance, ht, hs] at hwf
        rename_i b own
        cases z <;> simp [decodeReady, ht, hs] at hready
        rename_i zb zown
        cases h1 : encode fuel env s.baseType b with
        | none => simp [encode, ht, hs, h1] at henc
        | some wb =>
          cases h2 : encodeOwnWith (fun ft x => encode fuel env ft x) env
              s.fields own with
          | none => simp [encode, ht, hs, h1, h2] at henc
          | some wo =>
            have hw : w = wb ++ wo := by
              have hx := henc
              simp [encode, ht, hs, h1, h2] at hx
              exact hx.symm
            subst hw
            obtain ⟨hnodup, henum⟩ := goodEnv_schema env tname s hg hs
            have hbase : decode fuel env s.baseType zb (wb ++ (wo ++ rest)) =
                some (b, wo ++ rest) :=
              ih env hg hnn s.baseType b zb wb (wo ++ rest) hwf.1 hready.1 h1
            have hown : decodeOwnWith (fun ft y u => decode fuel env ft y u)
                (fun ft => construct fuel env ft []) env s.fields zown
                (wo ++ rest) = some (own, rest) :=
              decodeOwnWith_roundtrip (fun ft x => encode fuel env ft x)
                (fun ft y u => decode fuel env ft y u)
                (fun ft => construct fuel env ft [])
                (fun ft x => wfInstance fuel env ft x)
                (fun ft y => decodeReady fuel env ft y) env
                (fun ft o z w rest hw hr he =>
                  ih env hg hnn ft o z w rest hw hr he)
                (fun ft o hw => construct_empty_ready fuel env hg hnn ft o hw)
                s.fields own zown wo rest hnodup hwf.2 hready.2 h2
            simp [decode, ht, hs, List.append_assoc, hbase, hown]

theorem decodeOwnWith_names
    (recDec : String → Value → Wire → Option (Value × Wire))
    (recCons0 : String → Option Value) (env : Env) :
    ∀ (fields : List Field) (zown : List (String × Value)) (w : Wire)
      (own2 : List (String × Value)) (w2 : Wire),
    decodeOwnWith recDec recCons0 env fields zown w = some (own2, w2) →
    own2.map Prod.fst = fields.map Field.name := by
  intro fields
  induction fields with
  | nil =>
    intro zown w own2 w2 h
    simp only [decodeOwnWith, Option.some.injEq, Prod.mk.injEq] at h
    rw [← h.1]
    rfl
  | cons f fs ihf =>
    intro zown w own2 w2 h
    cases h1 : decodeFieldWith recDec recCons0 env f zown w with
    | none => simp [decodeOwnWith, h1] at h
    | some p =>
      obtain ⟨v, w1⟩ := p
      cases h2 : decodeOwnWith recDec recCons0 env fs zown w1 with
      | none => simp [decodeOwnWith, h1, h2] at h
      | some q =>
        obtain ⟨rest2, w3⟩ := q
        simp only [decodeOwnWith, h1, h2, Option.some.injEq,
          Prod.mk.injEq] at h
        rw [← h.1]
        simp [ihf zown w1 rest2 w3 h2]

theorem decode_vnull (fuel : Nat) (env : Env) (ft : String) (w : Wire)
    (ht : (ft == "BaseUAObject") = false) :
    decode fuel env ft Value.vnull w = none := by
  cases fuel with
  | zero => rfl
  | succ fuel =>
    cases hs : lookupSchema env ft with
    | none => simp [decode, ht, hs]
    | some s => simp [decode, ht, hs]

/-! ## Claim theorems: round-trip, order, in-place decode -/

/-- C1 counterexample: the round-trip claim fails as stated.  `A2` has
a nullable scalar complex field `child`; supplying it is a valid
option, the constructor builds the instance and encode produces its
wire image, but decoding those bytes into a freshly constructed
`new A2()` fails because the generated decode calls
`this.child.decode(stream)` on the `null` member. -/
theorem roundtrip_counterexample :
    construct 6 nullableEnv "A2" [("child", Opt.oobj [("cx", Opt.onum 9)])] =
      some nullableO ∧
    encode 6 nullableEnv "A2" nullableO = some [9] ∧
    construct 6 nullableEnv "A2" [] = some nullableZ ∧
    decode 6 nullableEnv "A2" nullableZ [9] = none :=
  ⟨rfl, rfl, rfl, rfl⟩

/-- C1 (amended): for schemas whose scalar complex fields are all
non-nullable (no `null` default and not self-referencing), decoding the
wire image of any well-formed instance into a freshly constructed
target reproduces the instance field-for-field, across scalar, array,
nested-complex and enumeration fields and arbitrary inheritance
depth. -/
theorem roundtrip_nonNullable (fuel : Nat) (env : Env) (tname : String)
    (o z : Value) (w : Wire)
    (hg : goodEnv env = true) (hnn : nonNullableEnv env = true)
    (hwf : wfInstance fuel env tname o = true)
    (hz : construct fuel env tname [] = some z)
    (he : encode fuel env tname o = some w) :
    decode fuel env tname z w = some (o, []) := by
  obtain ⟨z2, hz2, hr⟩ := construct_empty_ready fuel env hg hnn tname o hwf
  rw [hz] at hz2
  injection hz2 with hz2
  subst hz2
  have := decode_encode_roundtrip_aux fuel env hg hnn tname o z w [] hwf hr he
  simpa using this

/-- Witness for the amended C1: a schema with two levels of
inheritance and all four field kinds round-trips. -/
theorem roundtrip_nonNullable_witness :
    decode 6 sampleEnv "A" sampleZ sampleWire = some (sampleO, []) :=
  roundtrip_nonNullable 6 sampleEnv "A" sampleO sampleZ sampleWire
    rfl rfl rfl rfl rfl

/-- C2: the generated encode writes the base type's wire image first
and then one segment per declared field, in declaration order, each
read off the instance by field name; the generated decode mirrors this
exactly — base first, then the declared fields in the identical order,
producing exactly the declared field names in declaration order. -/
theorem encode_decode_order (fuel : Nat) (env : Env) (tname : String)
    (s : Schema)
    (ht : (tname == "BaseUAObject") = false)
    (hs : lookupSchema env tname = some s) :
    (∀ (b : Value) (own : List (String × Value)) (w : Wire),
      encode (fuel+1) env tname (Value.objV b own) = some w ↔
      ∃ wb wo, encode fuel env s.baseType b = some wb ∧
        encodeOwnWith (fun ft x => encode fuel env ft x) env s.fields own =
          some wo ∧
        w = wb ++ wo) ∧
    (∀ (f : Field) (fs : List Field) (o2 : List (String × Value)) (w3 : Wire),
      encodeOwnWith (fun ft x => encode fuel env ft x) env (f :: fs) o2 =
        some w3 ↔
      ∃ v w1 w2, lookupF o2 f.name = some v ∧
        encodeFieldWith (fun ft x => encode fuel env ft x) env f v = some w1 ∧
        encodeOwnWith (fun ft x => encode fuel env ft x) env fs o2 = some w2 ∧
        w3 = w1 ++ w2) ∧
    (∀ (zb : Value) (zown : List (String × Value)) (w0 : Wire)
       (r : Value × Wire),
      decode (fuel+1) env tname (Value.objV zb zown) w0 = some r ↔
      ∃ bv w1 own2 w2, decode fuel env s.baseType zb w0 = some (bv, w1) ∧
        decodeOwnWith (fun ft y u => decode fuel env ft y u)
          (fun ft => construct fuel env ft []) env s.fields zown w1 =
          some (own2, w2) ∧
        r = (Value.objV bv own2, w2)) ∧
    (∀ (zown own2 : List (String × Value)) (w1 w2 : Wire),
      decodeOwnWith (fun ft y u => decode fuel env ft y u)
        (fun ft => construct fuel env ft []) env s.fields zown w1 =
        some (own2, w2) →
      own2.map Prod.fst = s.fields.map Field.name) := by
  refine ⟨?_, ?_, ?_, ?_⟩
  · intro b own w
    constructor
    · intro h
      cases h1 : encode fuel env s.baseType b with
      | none => simp [encode, ht, hs, h1] at h
      | some wb =>
        cases h2 : encodeOwnWith (fun ft x => encode fuel env ft x) env
            s.fields own with
        | none => simp [encode, ht, hs, h1, h2] at h
        | some wo =>
          simp [encode, ht, hs, h1, h2] at h
          exact ⟨wb, wo, rfl, rfl, h.symm⟩
    · rintro ⟨wb, wo, h1, h2, rfl⟩
      simp [encode, ht, hs, h1, h2]
  · intro f fs o2 w3
    constructor
    · intro h
      cases h1 : lookupF o2 f.name with
      | none => simp [encodeOwnWith, h1] at h
      | some v =>
        cases h2 : encodeFieldWith (fun ft x => encode fuel env ft x) env
            f v with
        | none => simp [encodeOwnWith, h1, h2] at h
        | some w1 =>
          cases h3 : encodeOwnWith (fun ft x => encode fuel env ft x) env
              fs o2 with
          | none => simp [encodeOwnWith, h1, h2, h3] at h
          | some w2 =>
            simp [encodeOwnWith, h1, h2, h3] at h
            exact ⟨v, w1, w2, rfl, h2, rfl, h.symm⟩
    · rintro ⟨v, w1, w2, h1, h2, h3, rfl⟩
      simp [encodeOwnWith, h1, h2, h3]
  · intro zb zown w0 r
    constructor
    · intro h
      cases h1 : decode fuel env s.baseType zb w0 with
      | none => simp [decode, ht, hs, h1] at h
      | some p =>
        obtain ⟨bv, w1⟩ := p
        cases h2 : decodeOwnWith (fun ft y u => decode fuel env ft y u)
            (fun ft => construct fuel env ft []) env s.fields zown w1 with
        | none => simp [decode, ht, hs, h1, h2] at h
        | some q =>
          obtain ⟨own2, w2⟩ := q
          simp [decode, ht, hs, h1, h2] at h
          exact ⟨bv, w1, own2, w2, rfl, h2, h.symm⟩
    · rintro ⟨bv, w1, own2, w2, h1, h2, rfl⟩
      simp [decode, ht, hs, h1, h2]
  · intro zown own2 w1 w2 h
    exact decodeOwnWith_names (fun ft y u => decode fuel env ft y u)
      (fun ft => construct fuel env ft []) env s.fields zown w1 own2 w2 h

/-- Witness for C2 at the sample two-level schema. -/
theorem encode_decode_order_witness :
    (∀ (b : Value) (own : List (String × Value)) (w : Wire),
      encode 6 sampleEnv "A" (Value.objV b own) = some w ↔
      ∃ wb wo, encode 5 sampleEnv schemaA.baseType b = some wb ∧
        encodeOwnWith (fun ft x => encode 5 sampleEnv ft x) sampleEnv
          schemaA.fields own = some wo ∧
        w = wb ++ wo) ∧
    (∀ (f : Field) (fs : List Field) (o2 : List (String × Value)) (w3 : Wire),
      encodeOwnWith (fun ft x => encode 5 sampleEnv ft x) sampleEnv (f :: fs)
        o2 = some w3 ↔
      ∃ v w1 w2, lookupF o2 f.name = some v ∧
        encodeFieldWith (fun ft x => encode 5 sampleEnv ft x) sampleEnv f v =
          some w1 ∧
        encodeOwnWith (fun ft x => encode 5 sampleEnv ft x) sampleEnv fs o2 =
          some w2 ∧
        w3 = w1 ++ w2) ∧
    (∀ (zb : Value) (zown : List (String × Value)) (w0 : Wire)
       (r : Value × Wire),
      decode 6 sampleEnv "A" (Value.objV zb zown) w0 = some r ↔
      ∃ bv w1 own2 w2, decode 5 sampleEnv schemaA.baseType zb w0 =
          some (bv, w1) ∧
        decodeOwnWith (fun ft y u => decode 5 sampleEnv ft y u)
          (fun ft => construct 5 sampleEnv ft []) sampleEnv schemaA.fields
          zown w1 = some (own2, w2) ∧
        r = (Value.objV bv own2, w2)) ∧
    (∀ (zown own2 : List (String × Value)) (w1 w2 : Wire),
      decodeOwnWith (fun ft y u => decode 5 sampleEnv ft y u)
        (fun ft => construct 5 sampleEnv ft []) sampleEnv schemaA.fields zown
        w1 = some (own2, w2) →
      own2.map Prod.fst = schemaA.fields.map Field.name) :=
  encode_decode_order 5 sampleEnv "A" schemaA rfl rfl

/-- C9 counterexample: the generated decode does not allocate a nested
instance for a scalar complex field.  Decoding the wire image of a
valid `A2` instance into `new A2()` — whose `child` member is `null`
because the field is nullable and no option was supplied — fails
instead of allocating and filling, while the identical decode into a
target whose `child` member is a live object succeeds. -/
theorem scalar_complex_decode_counterexample :
    encode 6 nullableEnv "A2" nullableO = some [9] ∧
    lookupF [("child", Value.vnull)] "child" = some Value.vnull ∧
    decode 6 nullableEnv "A2" nullableZ [9] = none ∧
    decode 6 nullableEnv "A2" nullableZalloc [9] = some (nullableO, []) :=
  ⟨rfl, rfl, rfl, rfl⟩

/-- C9 (amended): for a scalar complex field the generated decode
performs no allocation: it delegates, in place, to the decode of the
nested value already stored under the field name on the target (the
value the constructor allocated), and it fails when that member is
absent or `null` rather than allocating one. -/
theorem scalar_complex_decode_in_place (fuel : Nat) (env : Env) (f : Field)
    (zown : List (String × Value)) (w : Wire)
    (hcat : f.category = Category.complex) (harr : f.isArray = false)
    (hft : (f.fieldType == "BaseUAObject") = false) :
    (lookupF zown f.name = none →
      decodeFieldWith (fun ft y u => decode fuel env ft y u)
        (fun ft => construct fuel env ft []) env f zown w = none) ∧
    (lookupF zown f.name = some Value.vnull →
      decodeFieldWith (fun ft y u => decode fuel env ft y u)
        (fun ft => construct fuel env ft []) env f zown w = none) ∧
    (∀ zv, lookupF zown f.name = some zv →
      decodeFieldWith (fun ft y u => decode fuel env ft y u)
        (fun ft => construct fuel env ft []) env f zown w =
        decode fuel env f.fieldType zv w) := by
  refine ⟨?_, ?_, ?_⟩
  · intro h
    simp [decodeFieldWith, hcat, harr, h]
  · intro h
    simp [decodeFieldWith, hcat, harr, h,
      decode_vnull fuel env f.fieldType w hft]
  · intro zv h
    simp [decodeFieldWith, hcat, harr, h]

/-- Witness for the amended C9 at the nullable sample field. -/
theorem scalar_complex_decode_in_place_witness :
    (lookupF [("child", Value.vnull)] "child" = none →
      decodeFieldWith (fun ft y u => decode 5 nullableEnv ft y u)
        (fun ft => construct 5 nullableEnv ft []) nullableEnv
        ⟨"child", "C", Category.complex, false, FieldDefault.dnull⟩
        [("child", Value.vnull)] [9] = none) ∧
    (lookupF [("child", Value.vnull)] "child" = some Value.vnull →
      decodeFieldWith (fun ft y u => decode 5 nullableEnv ft y u)
        (fun ft => construct 5 nullableEnv ft []) nullableEnv
        ⟨"child", "C", Category.complex, false, FieldDefault.dnull⟩
        [("child", Value.vnull)] [9] = none) ∧
    (∀ zv, lookupF [("child", Value.vnull)] "child" = some zv →
      decodeFieldWith (fun ft y u => decode 5 nullableEnv ft y u)
        (fun ft => construct 5 nullableEnv ft []) nullableEnv
        ⟨"child", "C", Category.complex, false, FieldDefault.dnull⟩
        [("child", Value.vnull)] [9] =
        decode 5 nullableEnv "C" zv [9]) :=
  scalar_complex_decode_in_place 5 nullableEnv
    ⟨"child", "C", Category.complex, false, FieldDefault.dnull⟩
    [("child", Value.vnull)] [9] rfl rfl rfl

/-- C8: for every array field with no supplied option and a fresh
default (no default, or a generator default), two constructor runs with
no options allocate distinct, empty sequences on the heap, and mutating
the first instance's sequence leaves the second instance's sequence
untouched. -/
theorem default_independence (fields : List Field) (f : Field) (h : Heap)
    (hmem : f ∈ fields) (hfresh : freshArrayField f = true)
    (hnodup : nodupB (fields.map Field.name) = true) :
    ∃ a1 a2,
      lookupA (constructArrayFields fields h).1 f.name =
        some (ArrInit.allocated a1) ∧
      lookupA (constructArrayFields fields (constructArrayFields fields h).2).1
          f.name = some (ArrInit.allocated a2) ∧
      a1 ≠ a2 ∧
      heapGet (constructArrayFields fields (constructArrayFields fields h).2).2
        a1 = some [] ∧
      heapGet (constructArrayFields fields (constructArrayFields fields h).2).2
        a2 = some [] ∧
      (∀ content,
        heapGet
          (heapSet
            (constructArrayFields fields (constructArrayFields fields h).2).2
            a1 content) a2 = some []) := by
  obtain ⟨a1, hl1, hlo1, hhi1, hc1⟩ :=
    constructArrayFields_fresh_lookup fields h f hmem hfresh hnodup
  obtain ⟨a2, hl2, hlo2, hhi2, hc2⟩ :=
    constructArrayFields_fresh_lookup fields (constructArrayFields fields h).2 f
      hmem hfresh hnodup
  have hne : a1 ≠ a2 := by omega
  have hc1' :
      heapGet (constructArrayFields fields (constructArrayFields fields h).2).2
        a1 = some [] := by
    rw [(constructArrayFields_growth fields (constructArrayFields fields h).2).2
      a1 hhi1]
    exact hc1
  refine ⟨a1, a2, hl1, hl2, hne, hc1', hc2, fun content => ?_⟩
  unfold heapSet heapGet
  unfold heapGet at hc2
  rw [List.getElem?_set_ne hne]
  exact hc2

/-- Witness for C8: the sample field list, starting from an empty
heap. -/
theorem default_independence_witness :
    ∃ a1 a2,
      lookupA (constructArrayFields arrayFieldsSample []).1 "ns" =
        some (ArrInit.allocated a1) ∧
      lookupA (constructArrayFields arrayFieldsSample
          (constructArrayFields arrayFieldsSample []).2).1 "ns" =
        some (ArrInit.allocated a2) ∧
      a1 ≠ a2 ∧
      heapGet (constructArrayFields arrayFieldsSample
          (constructArrayFields arrayFieldsSample []).2).2 a1 = some [] ∧
      heapGet (constructArrayFields arrayFieldsSample
          (constructArrayFields arrayFieldsSample []).2).2 a2 = some [] ∧
      (∀ content,
        heapGet
          (heapSet
            (constructArrayFields arrayFieldsSample
              (constructArrayFields arrayFieldsSample []).2).2
            a1 content) a2 = some []) :=
  default_independence arrayFieldsSample
    ⟨"ns", "UInt32", Category.basic, true, FieldDefault.dgen 0⟩ []
    (by decide) (by decide) (by decide)

/-- C10: `_get_future_sequence_number` leaves the counter unchanged and
returns exactly what the next `_get_next_sequence_number` call will
return; from any reachable counter state both yield a value between 1
and 4000000000 inclusive (never 0), the new counter state stays
reachable, and the value wraps back to 1 after 4000000000. -/
theorem subscription_sequence_numbers (c : Nat) (h : c ≤ sequenceNumberLimit) :
    (_get_future_sequence_number c).2 = c ∧
    (_get_future_sequence_number c).1 = (_get_next_sequence_number c).1 ∧
    1 ≤ (_get_next_sequence_number c).1 ∧
    (_get_next_sequence_number c).1 ≤ sequenceNumberLimit ∧
    (_get_next_sequence_number c).2 ≤ sequenceNumberLimit ∧
    (c = sequenceNumberLimit → (_get_next_sequence_number c).1 = 1) := by
  unfold _get_future_sequence_number _get_next_sequence_number sequenceNumberLimit at *
  refine ⟨rfl, rfl, ?_, ?_, ?_, ?_⟩ <;> simp only [] <;> split <;> omega

/-- Witness for C10 at the wrap point. -/
theorem subscription_sequence_numbers_witness :
    (_get_future_sequence_number 4000000000).2 = 4000000000 ∧
    (_get_future_sequence_number 4000000000).1 = (_get_next_sequence_number 4000000000).1 ∧
    1 ≤ (_get_next_sequence_number 4000000000).1 ∧
    (_get_next_sequence_number 4000000000).1 ≤ sequenceNumberLimit ∧
    (_get_next_sequence_number 4000000000).2 ≤ sequenceNumberLimit ∧
    (4000000000 = sequenceNumberLimit → (_get_next_sequence_number 4000000000).1 = 1) :=
  subscription_sequence_numbers 4000000000 (by decide)

/-- C3: the generated enumeration setter stores the canonical member a
raw value coerces to, or throws when the raw value matches no declared
member, leaving the hidden slot untouched; whatever it stores is a
declared member matching the raw value, and the getter returns it. -/
theorem enum_setter_safety (members : List (String × Nat))
    (slot : Option (String × Nat)) (value : Raw) :
    ((∀ m ∈ members, rawMatches value m = false) →
       enumPropertySet members value = Except.error "value cannot be coerced" ∧
       enumSlotAfterSet members slot value = slot) ∧
    (∀ m, enumPropertySet members value = Except.ok m →
       m ∈ members ∧ rawMatches value m = true ∧
       enumPropertyGet (enumSlotAfterSet members slot value) = some m) := by
  constructor
  · intro hno
    have hfind : members.find? (fun m => rawMatches value m) = none := by
      rw [List.find?_eq_none]
      intro x hx
      simp [hno x hx]
    have hget : typedEnumGet members value = none := by
      rw [typedEnumGet_eq_find, hfind]
    exact ⟨by simp [enumPropertySet, hget], by simp [enumSlotAfterSet, enumPropertySet, hget]⟩
  · intro m hm
    have hget : typedEnumGet members value = some m := by
      unfold enumPropertySet at hm
      cases h : typedEnumGet members value with
      | none => rw [h] at hm; cases hm
      | some x => rw [h] at hm; cases hm; rfl
    rw [typedEnumGet_eq_find] at hget
    refine ⟨List.mem_of_find?_eq_some hget, List.find?_some hget, ?_⟩
    simp [enumPropertyGet, enumSlotAfterSet, enumPropertySet, typedEnumGet_eq_find, hget]

/-- Witness for C3: ordinal 7 matches no member of the sample
enumeration, so the setter throws and the slot is untouched. -/
theorem enum_setter_safety_witness :
    enumPropertySet [("Red", 1), ("Green", 5)] (Raw.rord 7) =
      Except.error "value cannot be coerced" ∧
    enumSlotAfterSet [("Red", 1), ("Green", 5)] (some ("Red", 1)) (Raw.rord 7) =
      some ("Red", 1) :=
  (enum_setter_safety [("Red", 1), ("Green", 5)] (some ("Red", 1)) (Raw.rord 7)).1
    (by decide)

/-- C4: a schema with no explicit id and no
`<Name>_Encoding_DefaultBinary` catalog entry fails compilation with
the missing-binary-id ConfigurationError, and the registry and the id
counter are left unchanged (nothing is registered under the name). -/
theorem missing_id_rejection (cat : Catalog) (counter : Nat)
    (reg : List (String × CompiledType)) (s : Schema)
    (hid : s.id = none)
    (hcat : catalogLookup cat (s.name ++ "_Encoding_DefaultBinary") = none) :
    produce_code cat counter reg s =
      (some (CompileError.missingBinaryId s.name), reg, counter) := by
  simp [produce_code, hid, hcat]

/-- Witness for C4. -/
theorem missing_id_rejection_witness :
    produce_code [] 0 [] noIdSchema =
      (some (CompileError.missingBinaryId "Qux"), [], 0) :=
  missing_id_rejection [] 0 [] noIdSchema rfl rfl

/-- C5 counterexample: a schema with a fully custom `encode`, a
standard decode and no `decode_debug` compiles without any error —
`produce_code` only requires `decode_debug` when `decode` itself is
custom, so the claim as stated is false. -/
theorem custom_encode_no_debug_compiles :
    produce_code [] 0 [] customEncodeSchema =
      (none, [("Foo", ⟨"Foo", EncodingId.fixedId 42⟩)], 0) := rfl

/-- C5 (amended): a fully custom `encode` hook does not by itself
require `decode_debug`; with a valid id and no custom `decode`,
compilation succeeds. -/
theorem custom_encode_needs_no_decode_debug (cat : Catalog) (counter : Nat)
    (reg : List (String × CompiledType)) (s : Schema) (i : Int)
    (henc : s.hasEncode = true) (hdec : s.hasDecode = false)
    (hid : s.id = some i) (hnz : i ≠ 0) :
    (produce_code cat counter reg s).1 = none := by
  have hz : (i == 0) = false := by simpa using hnz
  simp [produce_code, hid, hz, hdec]

/-- Witness for the amended C5. -/
theorem custom_encode_needs_no_decode_debug_witness :
    (produce_code [] 0 [] customEncodeSchema).1 = none :=
  custom_encode_needs_no_decode_debug [] 0 [] customEncodeSchema 42 rfl rfl rfl
    (by decide)

/-- C6: a schema with a custom `decode` hook and no `decode_debug`
fails compilation with a ConfigurationError (whichever applies) before
anything is registered — so no instance of the type can ever be
constructed — and conversely a schema without a custom `decode` hook
compiles without requiring `decode_debug`. -/
theorem debug_path_completeness (cat : Catalog) (counter : Nat)
    (reg : List (String × CompiledType)) (s : Schema) :
    (s.hasDecode = true → s.hasDecodeDebug = false →
       (produce_code cat counter reg s).1.isSome = true ∧
       (produce_code cat counter reg s).2.1 = reg) ∧
    (∀ i : Int, s.hasDecode = false → s.id = some i → i ≠ 0 →
       (produce_code cat counter reg s).1 = none) := by
  constructor
  · intro h1 h2
    unfold produce_code
    cases hres : (match s.id with
      | some i => some i
      | none => catalogLookup cat (s.name ++ "_Encoding_DefaultBinary")) with
    | none => simp
    | some i =>
      by_cases hz : (i == 0) = true
      · simp [hz]
      · simp only [Bool.not_eq_true] at hz
        simp [hz, h1, h2]
  · intro i hdec hid hnz
    have hz : (i == 0) = false := by simpa using hnz
    simp [produce_code, hid, hz, hdec]

/-- Witness for C6 on both sides. -/
theorem debug_path_completeness_witness :
    ((produce_code [] 0 [] customDecodeSchema).1.isSome = true ∧
     (produce_code [] 0 [] customDecodeSchema).2.1 = []) ∧
    (produce_code [] 0 [] customEncodeSchema).1 = none :=
  ⟨(debug_path_completeness [] 0 [] customDecodeSchema).1 rfl rfl,
   (debug_path_completeness [] 0 [] customEncodeSchema).2 42 rfl rfl (by decide)⟩

/-- C7: a schema declared with the runtime-assignment sentinel id gets
its numeric id from the process-wide counter exactly once at compile
time (the counter advances by exactly one), every instance reports the
identical prototype-held identifier regardless of construction options,
and a subsequent runtime-sentinel compilation draws the next, distinct
counter value. -/
theorem runtime_id_stability (cat : Catalog) (counter : Nat)
    (reg reg2 : List (String × CompiledType)) (s s2 : Schema)
    (hs : s.id = some RUNTIME_GENERATED_ID)
    (hdec : (s.hasDecode && !s.hasDecodeDebug) = false)
    (hs2 : s2.id = some RUNTIME_GENERATED_ID)
    (hdec2 : (s2.hasDecode && !s2.hasDecodeDebug) = false) :
    produce_code cat counter reg s =
      (none, (s.name, ⟨s.name, EncodingId.runtimeAssigned counter⟩) :: reg,
       counter + 1) ∧
    (∀ o1 o2 : List (String × Opt),
       instanceEncodingDefaultBinary ⟨s.name, EncodingId.runtimeAssigned counter⟩ o1 =
       instanceEncodingDefaultBinary ⟨s.name, EncodingId.runtimeAssigned counter⟩ o2) ∧
    produce_code cat (counter + 1) reg2 s2 =
      (none, (s2.name, ⟨s2.name, EncodingId.runtimeAssigned (counter + 1)⟩) :: reg2,
       counter + 2) ∧
    EncodingId.runtimeAssigned counter ≠ EncodingId.runtimeAssigned (counter + 1) := by
  refine ⟨?_, fun o1 o2 => rfl, ?_, by simp⟩
  · simp [produce_code, hs, hdec, RUNTIME_GENERATED_ID]
  · simp [produce_code, hs2, hdec2, RUNTIME_GENERATED_ID]

/-- Witness for C7: two runtime-sentinel compilations from counter 5. -/
theorem runtime_id_stability_witness :
    produce_code [] 5 [] runtimeIdSchema =
      (none, [("Baz", ⟨"Baz", EncodingId.runtimeAssigned 5⟩)], 6) ∧
    (∀ o1 o2 : List (String × Opt),
       instanceEncodingDefaultBinary ⟨"Baz", EncodingId.runtimeAssigned 5⟩ o1 =
       instanceEncodingDefaultBinary ⟨"Baz", EncodingId.runtimeAssigned 5⟩ o2) ∧
    produce_code [] 6 [] runtimeIdSchema =
      (none, [("Baz", ⟨"Baz", EncodingId.runtimeAssigned 6⟩)], 7) ∧
    EncodingId.runtimeAssigned 5 ≠ EncodingId.runtimeAssigned 6 :=
  runtime_id_stability [] 5 [] [] runtimeIdSchema runtimeIdSchema rfl rfl rfl rfl

end OpcuaFactory
